import Mathlib

/-!
Verification of the Instagram non-follower analyzer.

A shallow embedding, in Lean 4, of the data-ingestion and set-reconciliation
logic of the `instagram-users-not-following-back` repository, together with
theorems settling the specification claims about it.

The repository contains two generations of the same program:

* the script revisions (read here as `script.js`, the two unnamed source
  files): an IIFE keeping `state.followers` / `state.following` as JS `Set`s
  of lowercased usernames, with `extractDataArray`, `processFollowerDataBatch`,
  `calculateNonFollowers`, `sortNonFollowers`, `renderResults`, `toggleSort`
  and `processInBatches`;
* the legacy `main.js`: plain arrays `followersNames` / `followingNames`
  filled by `fetchAndProcessJSON` without lowercasing or deduplication.

Both are embedded below.  JavaScript `Set`s are modelled as duplicate-free
lists in insertion order; JS objects parsed from JSON are modelled by the
`Json` inductive, with property enumeration order given by the field-list
order.  `String.prototype.toLowerCase` is modelled as ASCII per-character
lowercasing, and `String.prototype.localeCompare` as code-point lexicographic
comparison (the usernames involved are lowercase identifiers, for which the
default locale collation agrees with lexicographic order).  Asynchrony
(FileReader, fetch, setTimeout) is modelled away: each handler is a pure
function of the delivered value, and `JSON.parse` — a host builtin — is
modelled by passing its outcome (`Except String Json`) to the handler.
-/

/-- A parsed JSON value.  `obj` keeps fields in enumeration order
(for `JSON.parse` output this is textual order of the keys). -/
inductive Json where
  | null
  | bool (b : Bool)
  | num (n : Int)
  | str (s : String)
  | arr (elems : List Json)
  | obj (fields : List (String × Json))

/-- JS truthiness of a value (NaN is not representable in this model). -/
def truthy : Json → Bool
  | .null => false
  | .bool b => b
  | .num n => n != 0
  | .str s => s != ""
  | .arr _ => true
  | .obj _ => true

/-- JS property access `j[key]`: `some` value on an object that has the key,
`none` (i.e. `undefined`) otherwise.  Accesses guarded by optional chaining
in the source (`item?.string_list_data`, `entry?.value`) also yield
`undefined` on `null`, which this covers. -/
def getField (j : Json) (key : String) : Option Json :=
  match j with
  | .obj fields => fields.lookup key
  | _ => none

/-- Model of `String.prototype.toLowerCase`: per-character (ASCII)
lowercasing. -/
def jsToLowerCase (s : String) : String :=
  ⟨s.data.map Char.toLower⟩

/-- Model of `Set.prototype.add` on a JS `Set` given as its insertion-order
element list: appends the element unless already present. -/
def jsSetAdd (s : List String) (x : String) : List String :=
  if x ∈ s then s else s ++ [x]

/-- A JS `Set` built by inserting the elements of a list in order. -/
def jsSetOfList (l : List String) : List String :=
  l.foldl jsSetAdd []

/-- One entry of a `string_list_data` array, as processed by the loop body
`if (entry?.value) { set.add(entry.value.toLowerCase()); }` of
`processFollowerDataBatch` / `processFollowingDataBatch` (script.js).
A truthy non-string `value` makes `.toLowerCase()` throw a `TypeError`,
modelled as `.error`. -/
def entryAdd (acc : List String) (entry : Json) : Except String (List String) :=
  match getField entry "value" with
  | none => .ok acc
  | some v =>
    if truthy v then
      match v with
      | .str s => .ok (jsSetAdd acc (jsToLowerCase s))
      | _ => .error "entry.value.toLowerCase is not a function"
    else .ok acc

/-- The `string_list_data.forEach` loop of the batch processors: entries are
processed left to right; a thrown `TypeError` aborts the loop, keeping the
elements added so far. -/
def processEntries (acc : List String) : List Json → List String × Option String
  | [] => (acc, none)
  | e :: rest =>
    match entryAdd acc e with
    | .ok acc2 => processEntries acc2 rest
    | .error m => (acc, some m)

/-- One iteration of `dataArray.forEach(item => item?.string_list_data?.forEach(...))`
(script.js `processFollowerDataBatch`): a record whose `string_list_data` is
absent or `null` is skipped via optional chaining; a present non-array value
has no `forEach` and throws. -/
def processItem (acc : List String) (item : Json) : List String × Option String :=
  match getField item "string_list_data" with
  | none => (acc, none)
  | some .null => (acc, none)
  | some (.arr entries) => processEntries acc entries
  | some _ => (acc, some "string_list_data.forEach is not a function")

/-- The outer `dataArray.forEach` of the batch processors; an exception from
an item aborts the remaining items, keeping the set built so far. -/
def processItems (acc : List String) : List Json → List String × Option String
  | [] => (acc, none)
  | item :: rest =>
    match processItem acc item with
    | (acc2, none) => processItems acc2 rest
    | (acc2, some m) => (acc2, some m)

/-- Embedding of `processFollowerDataBatch` (script.js): clears `state.followers`
(start from the empty set) and folds the records in; the first component is
the resulting follower set (partial if an exception was thrown), the second
the thrown `TypeError` message, if any. -/
def processFollowerDataBatch (dataArray : List Json) : List String × Option String :=
  processItems [] dataArray

/-- Embedding of `processFollowingDataBatch` (script.js): same body as
`processFollowerDataBatch`, writing `state.following`. -/
def processFollowingDataBatch (dataArray : List Json) : List String × Option String :=
  processItems [] dataArray

/-- The wrapper keys probed by `extractDataArray` (script.js), in source
order. -/
def potentialKeys : List String :=
  ["relationships_followers", "relationships_following",
   "relationships_unfollowed_users", "string_map_data"]

/-- The errors an import can surface, tagged by their origin in the source:
`parseError` from the `JSON.parse` catch in `parseJsonFile`, `formatError`
from the `throw` in `extractDataArray`, `typeError` from a `TypeError`
thrown while processing records. -/
inductive ImportError where
  | parseError (msg : String)
  | formatError (msg : String)
  | typeError (msg : String)
deriving DecidableEq

/-- The message of the `throw new Error(...)` in `extractDataArray`
(script.js). -/
def unrecognizedMsg : String :=
  "JSON data structure not recognized. Expected an array or a common wrapper object (e.g., \x7b relationships_followers: [...] \x7d)."

/-- The `for (const key of potentialKeys)` loop of `extractDataArray`:
returns the value of the first key that is present with an array value. -/
def findArrayKey (data : Json) : List String → Option (List Json)
  | [] => none
  | k :: rest =>
    match getField data k with
    | some (.arr xs) => some xs
    | _ => findArrayKey data rest

/-- Embedding of `extractDataArray` (script.js): an array is used directly; an object is
probed for the known wrapper keys, then for its first own property
(`Object.keys(data)[0]` — note the `if (firstKey && ...)` guard, which
rejects an empty-string first key because `""` is falsy); anything else
throws. -/
def extractDataArray (data : Json) : Except ImportError (List Json) :=
  match data with
  | .arr xs => .ok xs
  | .obj fields =>
    match findArrayKey (.obj fields) potentialKeys with
    | some xs => .ok xs
    | none =>
      match fields.head? with
      | some (firstKey, firstVal) =>
        if firstKey ≠ "" then
          match firstVal with
          | .arr xs => .ok xs
          | _ => .error (.formatError unrecognizedMsg)
        else .error (.formatError unrecognizedMsg)
      | none => .error (.formatError unrecognizedMsg)
  | _ => .error (.formatError unrecognizedMsg)

/-- Embedding of `parseJsonFile` (script.js), as a function of the `JSON.parse` outcome on
the file's text: a syntax error is re-thrown as
`new Error("Invalid JSON: " + message)`. -/
def parseJsonFile (raw : Except String Json) : Except ImportError Json :=
  match raw with
  | .ok v => .ok v
  | .error m => .error (.parseError ("Invalid JSON: " ++ m))

/-- Which side a file upload is for (from the input element's id). -/
inductive Side where
  | followers
  | following
deriving DecidableEq

/-- The parts of script.js `state` the importer claims are about. -/
structure ImportState where
  followers : List String
  following : List String
  followersFileLoaded : Bool
  followingFileLoaded : Bool
deriving DecidableEq

/-- script.js initial state: both sets empty, neither file loaded. -/
def initState : ImportState :=
  { followers := [], following := [], followersFileLoaded := false, followingFileLoaded := false }

/-- Embedding of `handleFileUpload` (script.js), as a function of the prior state and the
`JSON.parse` outcome of the selected file's text.  On success the side's set
is wholesale replaced by the batch processor's output and its loaded flag
set; the `catch` branch clears the loaded flag and leaves the sets exactly
as the body left them (untouched for parse/format errors, partially rebuilt
for a mid-processing `TypeError`). -/
def handleFileUpload (side : Side) (st : ImportState) (raw : Except String Json) :
    ImportState × Except ImportError Unit :=
  match parseJsonFile raw with
  | .error e =>
    match side with
    | .followers => ({ st with followersFileLoaded := false }, .error e)
    | .following => ({ st with followingFileLoaded := false }, .error e)
  | .ok data =>
    match extractDataArray data with
    | .error e =>
      match side with
      | .followers => ({ st with followersFileLoaded := false }, .error e)
      | .following => ({ st with followingFileLoaded := false }, .error e)
    | .ok dataArray =>
      match side with
      | .followers =>
        match processFollowerDataBatch dataArray with
        | (s, none) => ({ st with followers := s, followersFileLoaded := true }, .ok ())
        | (s, some m) => ({ st with followers := s, followersFileLoaded := false },
            .error (.typeError m))
      | .following =>
        match processFollowingDataBatch dataArray with
        | (s, none) => ({ st with following := s, followingFileLoaded := true }, .ok ())
        | (s, some m) => ({ st with following := s, followingFileLoaded := false },
            .error (.typeError m))

/-- Strict lexicographic comparison of character lists (by code point). -/
def charListLt : List Char → List Char → Bool
  | [], [] => false
  | [], _ :: _ => true
  | _ :: _, [] => false
  | a :: as, b :: bs => if a < b then true else if b < a then false else charListLt as bs

/-- Model of `a.localeCompare(b)`: code-point lexicographic comparison
(`-1`, `0`, `1`): the usernames compared are lowercase identifiers, for
which the default collation agrees with lexicographic order. -/
def localeCompare (a b : String) : Int :=
  if charListLt a.data b.data then -1 else if charListLt b.data a.data then 1 else 0

/-- The comparator passed to `Array.prototype.sort` in `sortNonFollowers`
(script.js): `state.sortAsc ? compare : -compare`. -/
def sortCmp (sortAsc : Bool) (a b : String) : Int :=
  if sortAsc then localeCompare a b else -(localeCompare a b)

/-- Embedding of `sortNonFollowers` (script.js): sorts `state.nonFollowers` with the
direction-flipping comparator.  `Array.prototype.sort` with a consistent
comparator `c` produces an ordering in which `c a b ≤ 0` holds along the
list; it is modelled by a sort on that relation. -/
def sortNonFollowers (sortAsc : Bool) (l : List String) : List String :=
  List.insertionSort (fun a b => sortCmp sortAsc a b ≤ 0) l

/-- Embedding of `calculateNonFollowers` (script.js): with an empty following set it
warns and sets `state.nonFollowers = []`; otherwise it keeps the following
elements not in the follower set and sorts them per the current direction.
The two set arguments are JS `Set`s given as their insertion-order element
lists. -/
def calculateNonFollowers (sortAsc : Bool) (following followers : List String) : List String :=
  if following.length = 0 then []
  else sortNonFollowers sortAsc (following.filter (fun user => !followers.contains user))

/-- JS `haystack.includes(needle)`: some suffix of the haystack starts with
the needle (so the empty needle is always contained, as in JS). -/
def containsStr (s pat : String) : Bool :=
  s.data.tails.any (fun t => pat.data.isPrefixOf t)

/-- Model of `String.prototype.trim`: drops leading and trailing
whitespace characters. -/
def jsTrim (s : String) : String :=
  ⟨((s.data.dropWhile Char.isWhitespace).reverse.dropWhile Char.isWhitespace).reverse⟩

/-- The search filter of `renderResults` (script.js): the input value is
lowercased and trimmed; a non-empty term keeps the non-followers whose
lowercased form contains it, an empty term yields a copy of the whole
list. -/
def renderResultsFilter (nonFollowers : List String) (searchValue : String) : List String :=
  let searchTerm := jsTrim (jsToLowerCase searchValue)
  if searchTerm ≠ "" then
    nonFollowers.filter (fun user => containsStr (jsToLowerCase user) searchTerm)
  else nonFollowers

/-- Embedding of `toggleSort` (script.js): flips `state.sortAsc` and re-sorts
`state.nonFollowers` in place. -/
def toggleSort (sortAsc : Bool) (nonFollowers : List String) : Bool × List String :=
  (!sortAsc, sortNonFollowers (!sortAsc) nonFollowers)

/-- The value of `CONFIG.batchSize` (script.js). -/
def CONFIG_batchSize : Nat := 500

/-- Batches of `processInBatches` (script.js, earlier revision) on the
still-unprocessed suffix: the invocation of `processBatch` at `index`
runs `processor` on indices `[index, min(index + batchSize, total))` — the
first `batchSize` elements of the remaining suffix — and re-schedules
itself while `index < totalItems`.  The first argument bounds the recursion
depth; `remaining.length` suffices since each step drops at least one
element of a non-empty suffix. -/
def chunkedAux (B : Nat) : Nat → List α → List (List α)
  | _, [] => []
  | 0, _ :: _ => []
  | n + 1, x :: xs => ((x :: xs).take B) :: chunkedAux B n ((x :: xs).drop B)

/-- The sequence of slices processed by the successive `processBatch`
invocations of `processInBatches` (script.js, earlier revision): on an empty
array the single initial invocation processes the empty slice and resolves;
otherwise every invocation processes one non-empty batch. -/
def processInBatchesSlices (data : List α) : List (List α) :=
  match data with
  | [] => [[]]
  | x :: xs => chunkedAux CONFIG_batchSize (x :: xs).length (x :: xs)

/-- Embedding of `fetchAndProcessJSON` (legacy main.js), inner `forEach` over one record's
`string_list_data`: pushes each entry's raw `value` (possibly `undefined`,
modelled as `none`) onto the names array, with no lowercasing and no
deduplication; a `null` entry throws when its `.value` is read. -/
def mainJsPushEntries (acc : List (Option Json)) : List Json → List (Option Json) × Option String
  | [] => (acc, none)
  | .null :: _ => (acc, some "Cannot read properties of null (reading value)")
  | sd :: rest => mainJsPushEntries (acc ++ [getField sd "value"]) rest

/-- Embedding of `fetchAndProcessJSON` (legacy main.js), one item of the outer `forEach`:
`if (!item.string_list_data)` logs and skips the record when the field is
absent or falsy; a present truthy non-array field has no `forEach` and
throws. -/
def mainJsProcessItem (acc : List (Option Json)) (item : Json) : List (Option Json) × Option String :=
  match getField item "string_list_data" with
  | none => (acc, none)
  | some sld =>
    if truthy sld then
      match sld with
      | .arr entries => mainJsPushEntries acc entries
      | _ => (acc, some "item.string_list_data.forEach is not a function")
    else (acc, none)

/-- Embedding of `fetchAndProcessJSON` (legacy main.js), the outer `forEach` over the
fetched array, appending onto the module-level `namesArray`
(`followersNames` or `followingNames`); a thrown error is caught by the
promise chain's `.catch`, keeping what was pushed so far.  Reading
`string_list_data` off a `null` item throws. -/
def mainJsProcessData (acc : List (Option Json)) : List Json → List (Option Json) × Option String
  | [] => (acc, none)
  | .null :: _ => (acc, some "Cannot read properties of null (reading string_list_data)")
  | item :: rest =>
    match mainJsProcessItem acc item with
    | (acc2, none) => mainJsProcessData acc2 rest
    | (acc2, some m) => (acc2, some m)

/-- Modelled from the spec: resolution step (2), "scan a fixed priority list
of known wrapper keys and use the first present array-valued key". -/
def wrapperKeyStrategy (data : Json) : Option (List Json) :=
  potentialKeys.findSome? (fun k =>
    match getField data k with
    | some (.arr xs) => some xs
    | _ => none)

/-- Modelled from the spec, as amended: resolution step (3), "fall back to
the array value of the object's first own property, in enumeration order",
restricted to a non-empty first key name (the amendment forced by the
`if (firstKey && ...)` guard in the source). -/
def firstPropStrategy (data : Json) : Option (List Json) :=
  match data with
  | .obj ((k, .arr xs) :: _) => if k = "" then none else some xs
  | _ => none

/-- Modelled from the spec, as amended: `extractRecords` as an ordered list
of extraction strategies — (1) an array is used directly, (2) first present
array-valued wrapper key, (3) array value of the first own property with a
non-empty key, (4) otherwise an `UnrecognizedFormatError` with the source's
fixed message. -/
def extractDataArraySpec (data : Json) : Except ImportError (List Json) :=
  match data with
  | .arr xs => .ok xs
  | _ =>
    match (wrapperKeyStrategy data).orElse (fun _ => firstPropStrategy data) with
    | some xs => .ok xs
    | none => .error (.formatError unrecognizedMsg)

/-- The invariant claimed of each canonical `Set`: no duplicate entries and
no empty value (`undefined` is not representable in a set of strings — only
string-valued `value` fields are ever added). -/
def SetInv (s : List String) : Prop := s.Nodup ∧ "" ∉ s

/-- The claimed invariant on both stored sides. -/
def StateInv (st : ImportState) : Prop := SetInv st.followers ∧ SetInv st.following

/-- A whole session: a sequence of file uploads on either side, each given
by its `JSON.parse` outcome, folded through `handleFileUpload`. -/
def applyUploads (st : ImportState) (uploads : List (Side × Except String Json)) :
    ImportState :=
  uploads.foldl (fun st u => (handleFileUpload u.1 st u.2).1) st

/-- A relationship record with a single `string_list_data` entry carrying
the given `value`. -/
def valueRecord (v : String) : Json :=
  Json.obj [("string_list_data", Json.arr [Json.obj [("value", Json.str v)]])]

example : jsSetOfList ["b", "a", "b"] = ["b", "a"] := by decide
example : sortNonFollowers true ["b", "a", "c"] = ["a", "b", "c"] := by decide
example : sortNonFollowers false ["b", "a", "c"] = ["c", "b", "a"] := by decide
example : jsTrim " bo " = "bo" := by decide
example : containsStr "abo" "bo" = true := by decide
example : containsStr "abo" "" = true := by decide
example : containsStr "abo" "bob" = false := by decide
example : renderResultsFilter ["abo", "zz"] "BO" = ["abo"] := by decide
example : renderResultsFilter ["abo", "zz"] " " = ["abo", "zz"] := by decide
example : calculateNonFollowers true ["x", "z", "y"] ["x"] = ["y", "z"] := by decide
example : processInBatchesSlices ([] : List Nat) = [[]] := by decide
example : chunkedAux 2 5 [1, 2, 3, 4, 5] = [[1, 2], [3, 4], [5]] := by decide
example : mainJsProcessData []
    [Json.obj [("string_list_data", Json.arr [Json.obj [("value", Json.str "Alice")]])],
     Json.obj [("string_list_data", Json.arr [Json.obj [("value", Json.str "alice")]])]] =
    ([some (Json.str "Alice"), some (Json.str "alice")], none) := by rfl
example : processFollowerDataBatch
    [Json.obj [("string_list_data", Json.arr [Json.obj [("value", Json.str "Alice")]])],
     Json.obj [("string_list_data", Json.arr [Json.obj [("value", Json.str "alice")]])]] =
    (["alice"], none) := by rfl
example : extractDataArray (Json.obj [("a", Json.null)]) =
    .error (.formatError unrecognizedMsg) := by rfl
example : extractDataArray (Json.obj [("foo", Json.arr []), ("relationships_followers", Json.arr [Json.null])]) =
    .ok [Json.null] := by rfl

/-! ## Supporting lemmas -/

theorem charListLt_asymm : ∀ (a b : List Char), charListLt a b = true → charListLt b a = false
  | [], [] => by simp [charListLt]
  | [], _ :: _ => by intro _; rfl
  | _ :: _, [] => by simp [charListLt]
  | a :: as, b :: bs => by
    simp only [charListLt]
    rcases lt_trichotomy a b with h | rfl | h
    · simp only [if_pos h, if_neg h.not_lt]
      intro _
      trivial
    · simp only [if_neg (lt_irrefl a)]
      exact charListLt_asymm as bs
    · simp only [if_pos h, if_neg h.not_lt]
      intro hf
      exact Bool.noConfusion hf

theorem charListLt_conn : ∀ (a b : List Char),
    charListLt a b = false → charListLt b a = false → a = b
  | [], [] => by intro _ _; rfl
  | [], _ :: _ => by intro h; exact Bool.noConfusion h
  | _ :: _, [] => by intro _ h; exact Bool.noConfusion h
  | a :: as, b :: bs => by
    simp only [charListLt]
    rcases lt_trichotomy a b with h | rfl | h
    · simp only [if_pos h, if_neg h.not_lt]
      intro hf _
      exact Bool.noConfusion hf
    · simp only [if_neg (lt_irrefl a)]
      intro h1 h2
      rw [charListLt_conn as bs h1 h2]
    · simp only [if_pos h, if_neg h.not_lt]
      intro _ hf
      exact Bool.noConfusion hf

theorem charListLt_trans : ∀ (a b c : List Char),
    charListLt a b = true → charListLt b c = true → charListLt a c = true
  | _, b, [] => by
    intro _ hbc
    cases b <;> exact Bool.noConfusion hbc
  | a, [], _ :: _ => by
    intro hab
    cases a <;> exact Bool.noConfusion hab
  | [], _ :: _, _ :: _ => by intro _ _; rfl
  | a :: as, b :: bs, c :: cs => by
    simp only [charListLt]
    rcases lt_trichotomy a b with h1 | rfl | h1
    · rcases lt_trichotomy b c with h2 | rfl | h2
      · simp only [if_pos (h1.trans h2)]
        intro _ _
        trivial
      · simp only [if_pos h1]
        intro _ _
        trivial
      · simp only [if_pos h2, if_neg h2.not_lt]
        intro _ hf
        exact Bool.noConfusion hf
    · simp only [if_neg (lt_irrefl a)]
      rcases lt_trichotomy a c with h2 | rfl | h2
      · simp only [if_pos h2]
        intro _ _
        trivial
      · simp only [if_neg (lt_irrefl a)]
        exact charListLt_trans as bs cs
      · simp only [if_pos h2, if_neg h2.not_lt]
        intro _ hf
        exact Bool.noConfusion hf
    · simp only [if_pos h1, if_neg h1.not_lt]
      intro hf
      exact Bool.noConfusion hf

theorem charListLt_le_trans (a b c : List Char)
    (h1 : charListLt b a = false) (h2 : charListLt c b = false) :
    charListLt c a = false := by
  cases hca : charListLt c a with
  | false => rfl
  | true =>
    cases hab : charListLt a b with
    | true => exact absurd h2 (by rw [charListLt_trans c a b hca hab]; simp)
    | false =>
      rw [charListLt_conn a b hab h1] at hca
      exact absurd hca (by rw [h2]; simp)

theorem string_eq_of_data_eq {a b : String} (h : a.data = b.data) : a = b := by
  cases a
  cases b
  exact congrArg String.mk h

theorem sortCmp_asc_iff (a b : String) :
    sortCmp true a b ≤ 0 ↔ charListLt b.data a.data = false := by
  simp only [sortCmp, localeCompare, if_true]
  cases h1 : charListLt a.data b.data <;> cases h2 : charListLt b.data a.data <;>
    simp [h1, h2]
  · exact absurd h2 (by rw [charListLt_asymm _ _ h1]; simp)

theorem sortCmp_desc_iff (a b : String) :
    sortCmp false a b ≤ 0 ↔ charListLt a.data b.data = false := by
  simp only [sortCmp, localeCompare, if_false]
  cases h1 : charListLt a.data b.data <;> cases h2 : charListLt b.data a.data <;>
    simp [h1, h2]

theorem sortNonFollowers_false_eq_reverse (l : List String) :
    sortNonFollowers false l = (sortNonFollowers true l).reverse := by
  haveI htr : IsTrans String (fun a b => sortCmp false a b ≤ 0) := by
    constructor
    intro a b c hab hbc
    rw [sortCmp_desc_iff] at hab hbc ⊢
    exact charListLt_le_trans _ _ _ hbc hab
  haveI hto : IsTotal String (fun a b => sortCmp false a b ≤ 0) := by
    constructor
    intro a b
    rw [sortCmp_desc_iff, sortCmp_desc_iff]
    cases h : charListLt a.data b.data with
    | false => exact Or.inl rfl
    | true => exact Or.inr (charListLt_asymm _ _ h)
  haveI han : IsAntisymm String (fun a b => sortCmp false a b ≤ 0) := by
    constructor
    intro a b hab hba
    rw [sortCmp_desc_iff] at hab hba
    exact string_eq_of_data_eq (charListLt_conn _ _ hab hba)
  haveI hta : IsTrans String (fun a b => sortCmp true a b ≤ 0) := by
    constructor
    intro a b c hab hbc
    rw [sortCmp_asc_iff] at hab hbc ⊢
    exact charListLt_le_trans _ _ _ hab hbc
  haveI htoa : IsTotal String (fun a b => sortCmp true a b ≤ 0) := by
    constructor
    intro a b
    rw [sortCmp_asc_iff, sortCmp_asc_iff]
    cases h : charListLt b.data a.data with
    | false => exact Or.inl rfl
    | true => exact Or.inr (charListLt_asymm _ _ h)
  apply List.eq_of_perm_of_sorted
      (r := fun a b => sortCmp false a b ≤ 0)
  · exact (List.perm_insertionSort _ l).trans
      ((List.perm_insertionSort _ l).symm.trans (List.reverse_perm _).symm)
  · exact List.sorted_insertionSort _ l
  · have hs := List.sorted_insertionSort (fun a b => sortCmp true a b ≤ 0) l
    rw [List.Sorted, ← List.pairwise_reverse] at hs
    apply hs.imp
    intro a b h
    rw [sortCmp_asc_iff] at h
    rw [sortCmp_desc_iff]
    exact h

theorem mem_jsSetAdd {s : List String} {a x : String} :
    x ∈ jsSetAdd s a ↔ x ∈ s ∨ x = a := by
  unfold jsSetAdd
  split
  · rename_i h
    constructor
    · exact Or.inl
    · rintro (hx | rfl)
      · exact hx
      · exact h
  · simp [List.mem_append]

theorem nodup_jsSetAdd {s : List String} (h : s.Nodup) (a : String) :
    (jsSetAdd s a).Nodup := by
  unfold jsSetAdd
  split
  · exact h
  · rename_i hna
    simp [List.nodup_append, h, hna]

theorem mem_foldl_jsSetAdd :
    ∀ (l acc : List String) (x : String),
      x ∈ l.foldl jsSetAdd acc ↔ x ∈ acc ∨ x ∈ l
  | [], acc, x => by simp
  | a :: l, acc, x => by
    simp only [List.foldl_cons]
    rw [mem_foldl_jsSetAdd l (jsSetAdd acc a) x, mem_jsSetAdd]
    simp only [List.mem_cons]
    tauto

theorem mem_jsSetOfList {l : List String} {x : String} :
    x ∈ jsSetOfList l ↔ x ∈ l := by
  unfold jsSetOfList
  rw [mem_foldl_jsSetAdd]
  simp

theorem sortNonFollowers_perm (sortAsc : Bool) (l : List String) :
    (sortNonFollowers sortAsc l).Perm l :=
  List.perm_insertionSort _ l

theorem mem_calculateNonFollowers {sortAsc : Bool} {G F : List String} {u : String} :
    u ∈ calculateNonFollowers sortAsc G F ↔ u ∈ G ∧ u ∉ F := by
  unfold calculateNonFollowers
  split
  · rename_i h
    have hG : G = [] := List.length_eq_zero.mp h
    subst hG
    simp
  · rw [(sortNonFollowers_perm _ _).mem_iff, List.mem_filter]
    simp

theorem jsToLowerCase_eq_empty_iff {s : String} : jsToLowerCase s = "" ↔ s = "" := by
  constructor
  · intro hc
    have hd : s.data.map Char.toLower = [] := congrArg String.data hc
    exact string_eq_of_data_eq (List.map_eq_nil_iff.mp hd)
  · rintro rfl
    rfl

theorem entryAdd_ok_cases {acc acc2 : List String} {e : Json}
    (h : entryAdd acc e = .ok acc2) :
    acc2 = acc ∨ ∃ s : String, s ≠ "" ∧ acc2 = jsSetAdd acc (jsToLowerCase s) := by
  unfold entryAdd at h
  cases hf : getField e "value" with
  | none =>
    rw [hf] at h
    exact Or.inl (Except.ok.inj h).symm
  | some v =>
    rw [hf] at h
    dsimp only at h
    by_cases ht : truthy v = true
    · rw [if_pos ht] at h
      cases v with
      | str s =>
        right
        refine ⟨s, ?_, (Except.ok.inj h).symm⟩
        intro hs
        rw [hs] at ht
        simp [truthy] at ht
      | null => exact Except.noConfusion h
      | bool b => exact Except.noConfusion h
      | num n => exact Except.noConfusion h
      | arr xs => exact Except.noConfusion h
      | obj fs => exact Except.noConfusion h
    · rw [if_neg ht] at h
      exact Or.inl (Except.ok.inj h).symm

theorem processEntries_fst_mem :
    ∀ (entries : List Json) (acc : List String) (u : String),
      u ∈ (processEntries acc entries).1 →
      u ∈ acc ∨ ∃ s : String, s ≠ "" ∧ u = jsToLowerCase s
  | [], acc, u => fun hu => Or.inl hu
  | e :: rest, acc, u => by
    simp only [processEntries]
    cases he : entryAdd acc e with
    | ok acc2 =>
      intro hu
      rcases processEntries_fst_mem rest acc2 u hu with h | h
      · rcases entryAdd_ok_cases he with rfl | ⟨s, hs, rfl⟩
        · exact Or.inl h
        · rw [mem_jsSetAdd] at h
          rcases h with h | rfl
          · exact Or.inl h
          · exact Or.inr ⟨s, hs, rfl⟩
      · exact Or.inr h
    | error m => exact fun hu => Or.inl hu

theorem processEntries_fst_nodup :
    ∀ (entries : List Json) (acc : List String), acc.Nodup →
      (processEntries acc entries).1.Nodup
  | [], acc => fun h => h
  | e :: rest, acc => by
    intro hnd
    simp only [processEntries]
    cases he : entryAdd acc e with
    | ok acc2 =>
      rcases entryAdd_ok_cases he with rfl | ⟨s, _, rfl⟩
      · exact processEntries_fst_nodup rest acc2 hnd
      · exact processEntries_fst_nodup rest _ (nodup_jsSetAdd hnd _)
    | error m => exact hnd

theorem processItem_fst_mem {acc : List String} {item : Json} {u : String} :
    u ∈ (processItem acc item).1 →
    u ∈ acc ∨ ∃ s : String, s ≠ "" ∧ u = jsToLowerCase s := by
  unfold processItem
  cases getField item "string_list_data" with
  | none => exact fun hu => Or.inl hu
  | some v =>
    cases v with
    | null => exact fun hu => Or.inl hu
    | arr entries => exact processEntries_fst_mem entries acc u
    | bool b => exact fun hu => Or.inl hu
    | num n => exact fun hu => Or.inl hu
    | str s => exact fun hu => Or.inl hu
    | obj fs => exact fun hu => Or.inl hu

theorem processItem_fst_nodup {acc : List String} {item : Json} (hnd : acc.Nodup) :
    (processItem acc item).1.Nodup := by
  unfold processItem
  cases getField item "string_list_data" with
  | none => exact hnd
  | some v =>
    cases v with
    | null => exact hnd
    | arr entries => exact processEntries_fst_nodup entries acc hnd
    | bool b => exact hnd
    | num n => exact hnd
    | str s => exact hnd
    | obj fs => exact hnd

theorem processItems_fst_mem :
    ∀ (items : List Json) (acc : List String) (u : String),
      u ∈ (processItems acc items).1 →
      u ∈ acc ∨ ∃ s : String, s ≠ "" ∧ u = jsToLowerCase s
  | [], acc, u => fun hu => Or.inl hu
  | item :: rest, acc, u => by
    simp only [processItems]
    cases hp : processItem acc item with
    | mk acc2 err =>
      cases err with
      | none =>
        intro hu
        rcases processItems_fst_mem rest acc2 u hu with h | h
        · have := @processItem_fst_mem acc item u
          rw [hp] at this
          exact this h
        · exact Or.inr h
      | some m =>
        intro hu
        have := @processItem_fst_mem acc item u
        rw [hp] at this
        exact this hu

theorem processItems_fst_nodup :
    ∀ (items : List Json) (acc : List String), acc.Nodup →
      (processItems acc items).1.Nodup
  | [], acc => fun h => h
  | item :: rest, acc => by
    intro hnd
    simp only [processItems]
    cases hp : processItem acc item with
    | mk acc2 err =>
      have h2 : acc2.Nodup := by
        have := @processItem_fst_nodup acc item hnd
        rw [hp] at this
        exact this
      cases err with
      | none => exact processItems_fst_nodup rest acc2 h2
      | some m => exact h2

theorem processItems_skip :
    ∀ (pre : List Json) (acc : List String) (item : Json) (post : List Json),
      getField item "string_list_data" = none →
      processItems acc (pre ++ item :: post) = processItems acc (pre ++ post)
  | [], acc, item, post => by
    intro h
    simp only [List.nil_append, processItems, processItem, h]
  | p :: pre, acc, item, post => by
    intro h
    simp only [List.cons_append, processItems]
    cases hp : processItem acc p with
    | mk acc2 err =>
      cases err with
      | none => exact processItems_skip pre acc2 item post h
      | some m => rfl

theorem chunkedAux_nil (B n : Nat) : chunkedAux B n ([] : List α) = [] := by
  cases n <;> rfl

theorem flatten_chunkedAux :
    ∀ (n : Nat) (l : List α), l.length ≤ n → (chunkedAux CONFIG_batchSize n l).flatten = l
  | n, [], _ => by rw [chunkedAux_nil]; rfl
  | 0, x :: xs, h => by simp at h
  | n + 1, x :: xs, h => by
    have hB : CONFIG_batchSize = 500 := rfl
    have hrec : ((x :: xs).drop CONFIG_batchSize).length ≤ n := by
      rw [List.length_drop]
      simp only [List.length_cons] at h ⊢
      omega
    simp only [chunkedAux, List.flatten_cons]
    rw [flatten_chunkedAux n _ hrec]
    exact List.take_append_drop _ _

theorem length_chunkedAux :
    ∀ (n : Nat) (l : List α), l ≠ [] → l.length ≤ n →
      (chunkedAux CONFIG_batchSize n l).length
        = (l.length + CONFIG_batchSize - 1) / CONFIG_batchSize
  | _, [], hne, _ => absurd rfl hne
  | 0, x :: xs, _, h => by simp at h
  | n + 1, x :: xs, _, h => by
    have hB : CONFIG_batchSize = 500 := rfl
    by_cases hd : (x :: xs).drop CONFIG_batchSize = []
    · have hlen : (x :: xs).length - CONFIG_batchSize = 0 := by
        have := congrArg List.length hd
        rw [List.length_drop] at this
        simpa using this
      simp only [chunkedAux, hd, chunkedAux_nil, List.length_cons, List.length_nil]
      simp only [List.length_cons, hB] at hlen ⊢
      omega
    · have hlen : CONFIG_batchSize < (x :: xs).length := by
        rcases Nat.lt_or_ge CONFIG_batchSize ((x :: xs).length) with hlt | hge
        · exact hlt
        · exact absurd (List.drop_eq_nil_of_le hge) hd
      have hrec : ((x :: xs).drop CONFIG_batchSize).length ≤ n := by
        rw [List.length_drop]
        simp only [List.length_cons] at h ⊢
        omega
      simp only [chunkedAux, List.length_cons]
      rw [length_chunkedAux n _ hd hrec]
      rw [List.length_drop]
      simp only [List.length_cons, hB] at hlen ⊢
      omega

theorem processInBatchesSlices_flatten (data : List α) :
    (processInBatchesSlices data).flatten = data := by
  cases data with
  | nil => rfl
  | cons x xs => exact flatten_chunkedAux _ _ le_rfl

theorem processInBatchesSlices_length (data : List α) :
    (processInBatchesSlices data).length =
      max 1 ((data.length + CONFIG_batchSize - 1) / CONFIG_batchSize) := by
  cases data with
  | nil => simp [processInBatchesSlices, CONFIG_batchSize]
  | cons x xs =>
    have h1 : (processInBatchesSlices (x :: xs)).length
        = ((x :: xs).length + CONFIG_batchSize - 1) / CONFIG_batchSize :=
      length_chunkedAux _ _ (by simp) le_rfl
    rw [h1]
    have hB : CONFIG_batchSize = 500 := rfl
    simp only [hB, List.length_cons]
    omega

theorem findArrayKey_eq_findSome? (data : Json) :
    ∀ keys : List String,
      findArrayKey data keys = keys.findSome? (fun k =>
        match getField data k with
        | some (.arr xs) => some xs
        | _ => none)
  | [] => rfl
  | k :: rest => by
    rw [List.findSome?_cons]
    simp only [findArrayKey]
    cases getField data k with
    | none => exact findArrayKey_eq_findSome? data rest
    | some v =>
      cases v with
      | arr xs => rfl
      | null => exact findArrayKey_eq_findSome? data rest
      | bool b => exact findArrayKey_eq_findSome? data rest
      | num n => exact findArrayKey_eq_findSome? data rest
      | str s => exact findArrayKey_eq_findSome? data rest
      | obj fs => exact findArrayKey_eq_findSome? data rest

theorem extractDataArray_eq_spec (data : Json) :
    extractDataArray data = extractDataArraySpec data := by
  cases data with
  | arr xs => rfl
  | null => rfl
  | bool b => rfl
  | num n => rfl
  | str s => rfl
  | obj fields =>
    simp only [extractDataArray, extractDataArraySpec, wrapperKeyStrategy]
    rw [findArrayKey_eq_findSome?]
    cases potentialKeys.findSome? (fun k =>
        match getField (Json.obj fields) k with
        | some (.arr xs) => some xs
        | _ => none) with
    | some xs => rfl
    | none =>
      simp only [Option.orElse, firstPropStrategy]
      cases fields with
      | nil => rfl
      | cons kv rest =>
        obtain ⟨k, v⟩ := kv
        by_cases hk : k = ""
        · subst hk
          cases v <;> simp [List.head?]
        · cases v <;> simp [List.head?, hk]

theorem processItems_setInv (arr : List Json) : SetInv (processItems [] arr).1 := by
  constructor
  · exact processItems_fst_nodup arr [] List.nodup_nil
  · intro hmem
    rcases processItems_fst_mem arr [] "" hmem with h | ⟨s, hs, hlow⟩
    · simp at h
    · exact hs (jsToLowerCase_eq_empty_iff.mp hlow.symm)

theorem handleFileUpload_inv {side : Side} {st : ImportState} {raw : Except String Json}
    (h : StateInv st) : StateInv (handleFileUpload side st raw).1 := by
  unfold handleFileUpload
  cases raw with
  | error e => cases side <;> exact ⟨h.1, h.2⟩
  | ok v =>
    simp only [parseJsonFile]
    cases hx : extractDataArray v with
    | error e => cases side <;> exact ⟨h.1, h.2⟩
    | ok arr =>
      cases side with
      | followers =>
        dsimp only
        cases hb : processFollowerDataBatch arr with
        | mk s err =>
          have hs : SetInv s := by
            have hinv := processItems_setInv arr
            rw [show processItems [] arr = (s, err) from hb] at hinv
            exact hinv
          cases err with
          | none => exact ⟨hs, h.2⟩
          | some m => exact ⟨hs, h.2⟩
      | following =>
        dsimp only
        cases hb : processFollowingDataBatch arr with
        | mk s err =>
          have hs : SetInv s := by
            have hinv := processItems_setInv arr
            rw [show processItems [] arr = (s, err) from hb] at hinv
            exact hinv
          cases err with
          | none => exact ⟨h.1, hs⟩
          | some m => exact ⟨h.1, hs⟩

theorem applyUploads_inv :
    ∀ (uploads : List (Side × Except String Json)) (st : ImportState),
      StateInv st → StateInv (applyUploads st uploads)
  | [], _, h => h
  | _ :: rest, _, h => applyUploads_inv rest _ (handleFileUpload_inv h)

/-! ## Claims -/

/-- C1: for every pair of username collections `F` (followers) and `G`
(following), in any input order, the non-follower list computed by
`calculateNonFollowers` on the sets built from them is, as a set, exactly
`{u ∈ G | u ∉ F}`; consequently it is independent of the order in which
elements appear in either input. -/
theorem C1_nonfollowers_eq_set_difference :
    (∀ (sortAsc : Bool) (F G : List String),
      (calculateNonFollowers sortAsc (jsSetOfList G) (jsSetOfList F)).toFinset
        = G.toFinset \ F.toFinset) ∧
    (∀ (sortAsc : Bool) (F G F' G' : List String), F.Perm F' → G.Perm G' →
      (calculateNonFollowers sortAsc (jsSetOfList G') (jsSetOfList F')).toFinset
        = (calculateNonFollowers sortAsc (jsSetOfList G) (jsSetOfList F)).toFinset) := by
  have key : ∀ (sortAsc : Bool) (F G : List String),
      (calculateNonFollowers sortAsc (jsSetOfList G) (jsSetOfList F)).toFinset
        = G.toFinset \ F.toFinset := by
    intro sortAsc F G
    ext u
    simp only [List.mem_toFinset, Finset.mem_sdiff, mem_calculateNonFollowers,
      mem_jsSetOfList]
  refine ⟨key, ?_⟩
  intro sortAsc F G F' G' hF hG
  rw [key, key, List.toFinset_eq_of_perm _ _ hF, List.toFinset_eq_of_perm _ _ hG]

theorem C1_witness :
    (["x"] : List String).Perm ["x"] ∧ (["z", "x"] : List String).Perm ["x", "z"] ∧
    (calculateNonFollowers true (jsSetOfList ["x", "z"]) (jsSetOfList ["x"])).toFinset
      = (calculateNonFollowers true (jsSetOfList ["z", "x"]) (jsSetOfList ["x"])).toFinset :=
  ⟨by decide, by decide,
    C1_nonfollowers_eq_set_difference.2 true ["x"] ["z", "x"] ["x"] ["x", "z"]
      (by decide) (by decide)⟩

/-- C2: importing a file whose text is not valid JSON (modelled by the
`JSON.parse` outcome being an error) fails with the wrapped parse error and
leaves both previously committed sets exactly as they were — no partial
overwrite on either side. -/
theorem C2_parse_error_preserves_state :
    ∀ (side : Side) (st : ImportState) (emsg : String),
      (handleFileUpload side st (.error emsg)).1.followers = st.followers ∧
      (handleFileUpload side st (.error emsg)).1.following = st.following ∧
      (handleFileUpload side st (.error emsg)).2
        = .error (.parseError ("Invalid JSON: " ++ emsg)) := by
  intro side st emsg
  cases side <;> exact ⟨rfl, rfl, rfl⟩

/-- C3: with an empty following set the computed non-follower list is empty
(and no error is raised — the function returns normally); with an empty
follower set and non-empty following set, recomputing yields the full
following list (as the same collection of elements, reordered only by the
sort). -/
theorem C3_empty_side_edge_cases :
    (∀ (sortAsc : Bool) (F : List String), calculateNonFollowers sortAsc [] F = []) ∧
    (∀ (sortAsc : Bool) (G : List String), G ≠ [] →
      (calculateNonFollowers sortAsc G []).Perm G) := by
  constructor
  · intro sortAsc F
    rfl
  · intro sortAsc G hG
    unfold calculateNonFollowers
    rw [if_neg (by simpa using hG)]
    have hfil : G.filter (fun user => !List.contains [] user) = G := by
      simp [List.filter_eq_self]
    rw [hfil]
    exact sortNonFollowers_perm _ _

theorem C3_witness :
    (["a"] : List String) ≠ [] ∧ (calculateNonFollowers true ["a"] []).Perm ["a"] :=
  ⟨by decide, C3_empty_side_edge_cases.2 true ["a"] (by decide)⟩

/-- C4 counterexample: the legacy `main.js` pipeline (also cited by the
claim) pushes raw values — importing `"Alice"` and `"alice"` stores two
distinct entries that differ only in letter case; nothing is lowercased
before insertion there. -/
theorem C4_counterexample :
    mainJsProcessData [] [valueRecord "Alice", valueRecord "alice"]
      = ([some (Json.str "Alice"), some (Json.str "alice")], none) ∧
    jsToLowerCase "Alice" = jsToLowerCase "alice" ∧
    some (Json.str "Alice") ≠ some (Json.str "alice") := by
  refine ⟨rfl, rfl, fun h => ?_⟩
  have h1 := Option.some.inj h
  injection h1 with h2
  exact absurd h2 (by decide)

/-- C4 (amended): in the script's `Set`-based importer the claim holds —
every stored username is the lowercase image of a source value, and two
entry values that differ only in letter case collapse to a single stored
username; the legacy `main.js` array pipeline stores raw values instead
(see the counterexample). -/
theorem C4_amended_lowercase_collapse :
    (∀ (dataArray : List Json) (u : String),
      u ∈ (processFollowerDataBatch dataArray).1 → ∃ s : String, u = jsToLowerCase s) ∧
    (∀ v w : String, v ≠ "" → w ≠ "" → jsToLowerCase v = jsToLowerCase w →
      processFollowerDataBatch [valueRecord v, valueRecord w]
        = ([jsToLowerCase v], none)) := by
  constructor
  · intro dataArray u hu
    rcases processItems_fst_mem dataArray [] u hu with h | ⟨s, _, rfl⟩
    · simp at h
    · exact ⟨s, rfl⟩
  · intro v w hv hw hvw
    have hA : ∀ (acc : List String) (x : String), x ≠ "" →
        processItem acc (valueRecord x) = (jsSetAdd acc (jsToLowerCase x), none) := by
      intro acc x hx
      have he : entryAdd acc (Json.obj [("value", Json.str x)])
          = Except.ok (jsSetAdd acc (jsToLowerCase x)) := by
        show (if (x != "") = true
            then (Except.ok (jsSetAdd acc (jsToLowerCase x)) : Except String (List String))
            else Except.ok acc) = _
        rw [if_pos (bne_iff_ne.mpr hx)]
      show (match entryAdd acc (Json.obj [("value", Json.str x)]) with
            | .ok acc2 => processEntries acc2 []
            | .error m => (acc, some m)) = _
      rw [he]
      rfl
    show (match processItem [] (valueRecord v) with
          | (acc2, none) => processItems acc2 [valueRecord w]
          | (acc2, some m) => (acc2, some m)) = _
    rw [hA [] v hv]
    show (match processItem [jsToLowerCase v] (valueRecord w) with
          | (acc2, none) => processItems acc2 []
          | (acc2, some m) => (acc2, some m)) = _
    rw [hA _ w hw, ← hvw]
    rw [show jsSetAdd [jsToLowerCase v] (jsToLowerCase v) = [jsToLowerCase v] by
      unfold jsSetAdd
      rw [if_pos (List.mem_singleton_self _)]]
    rfl

theorem C4_witness :
    ("Alice" : String) ≠ "" ∧ ("alice" : String) ≠ "" ∧
    jsToLowerCase "Alice" = jsToLowerCase "alice" ∧
    processFollowerDataBatch [valueRecord "Alice", valueRecord "alice"]
      = ([jsToLowerCase "Alice"], none) :=
  ⟨by decide, by decide, rfl,
    C4_amended_lowercase_collapse.2 "Alice" "alice" (by decide) (by decide) rfl⟩

/-- C5 counterexample: extraction does not fail "naming the attempted keys" —
the thrown message omits attempted keys such as `string_map_data` and
`relationships_following` (it shows only one example key); and rule (3) as
stated also fails: an object whose first own property has an array value but
an empty-string key name is rejected by the `if (firstKey && ...)` guard
instead of being used. -/
theorem C5_counterexample :
    extractDataArray (Json.obj [("a", Json.null)])
      = .error (.formatError unrecognizedMsg) ∧
    containsStr unrecognizedMsg "string_map_data" = false ∧
    containsStr unrecognizedMsg "relationships_following" = false ∧
    "string_map_data" ∈ potentialKeys ∧
    extractDataArray (Json.obj [("", Json.arr [Json.null])])
      = .error (.formatError unrecognizedMsg) ∧
    extractDataArray (Json.obj [("", Json.arr [Json.null])]) ≠ .ok [Json.null] := by
  refine ⟨rfl, by decide, by decide, by decide, rfl, fun h => ?_⟩
  rw [show extractDataArray (Json.obj [("", Json.arr [Json.null])])
      = .error (.formatError unrecognizedMsg) from rfl] at h
  exact Except.noConfusion h

/-- C5 (amended): record extraction follows the strategy order — (1) an
array is used directly; (2) else the first present array-valued key of the
fixed priority list is used; (3) else the array value of the object's first
own property is used, provided its key name is non-empty; (4) otherwise
extraction fails with the fixed `UnrecognizedFormatError` message, which
names one example wrapper key rather than all attempted keys.  Formalized
as extensional equality of `extractDataArray` with the spec-modelled
ordered strategy list. -/
theorem C5_amended_extraction_order :
    ∀ data : Json, extractDataArray data = extractDataArraySpec data :=
  extractDataArray_eq_spec

/-- C6 counterexample: the search text is lowercased and trimmed before
filtering, so for the whitespace substring `" "` the code returns the full
list while the claim's filter (elements containing `" "` case-insensitively)
returns the empty subsequence. -/
theorem C6_counterexample :
    renderResultsFilter ["bob"] " " = ["bob"] ∧
    List.filter (fun u => containsStr (jsToLowerCase u) (jsToLowerCase " ")) ["bob"] = [] ∧
    renderResultsFilter ["bob"] " "
      ≠ List.filter (fun u => containsStr (jsToLowerCase u) (jsToLowerCase " ")) ["bob"] := by
  refine ⟨rfl, rfl, by decide⟩

/-- C6 (amended): the filter first lowercases and trims the search text; a
term that is non-empty after trimming selects exactly the subsequence of the
canonical list whose elements contain it case-insensitively, in the
canonical list's order and without mutating it, and a term that is empty
after trimming (in particular the empty substring) returns the full list
unchanged. -/
theorem C6_amended_filter :
    (∀ (l : List String) (s : String), (renderResultsFilter l s).Sublist l) ∧
    (∀ (l : List String) (s : String), jsTrim (jsToLowerCase s) ≠ "" →
      renderResultsFilter l s
        = l.filter (fun u => containsStr (jsToLowerCase u) (jsTrim (jsToLowerCase s)))) ∧
    (∀ (l : List String) (s : String), jsTrim (jsToLowerCase s) = "" →
      renderResultsFilter l s = l) := by
  refine ⟨?_, ?_, ?_⟩
  · intro l s
    unfold renderResultsFilter
    simp only []
    split
    · exact List.filter_sublist l
    · exact List.Sublist.refl l
  · intro l s h
    unfold renderResultsFilter
    exact if_pos h
  · intro l s h
    unfold renderResultsFilter
    exact if_neg (by simp [h])

theorem C6_witness :
    jsTrim (jsToLowerCase "BO") ≠ "" ∧
    renderResultsFilter ["abo", "zz"] "BO"
      = List.filter (fun u => containsStr (jsToLowerCase u) (jsTrim (jsToLowerCase "BO")))
          ["abo", "zz"] :=
  ⟨by decide, C6_amended_filter.2.1 ["abo", "zz"] "BO" (by decide)⟩

/-- C7: on a duplicate-free non-follower list of size at least 2, flipping
the sort direction exactly reverses the sequence: the descending sort is the
reverse of the ascending sort, equivalently in terms of the `toggleSort`
wrapper (which flips the flag and re-sorts). -/
theorem C7_sort_direction_reverses (l : List String)
    (_hnd : l.Nodup) (_hlen : 2 ≤ l.length) :
    sortNonFollowers false l = (sortNonFollowers true l).reverse ∧
    (toggleSort true l).2 = ((toggleSort false l).2).reverse :=
  ⟨sortNonFollowers_false_eq_reverse l, sortNonFollowers_false_eq_reverse l⟩

theorem C7_witness :
    (["b", "a"] : List String).Nodup ∧ 2 ≤ (["b", "a"] : List String).length ∧
    sortNonFollowers false ["b", "a"] = (sortNonFollowers true ["b", "a"]).reverse :=
  ⟨by decide, by decide, (C7_sort_direction_reverses ["b", "a"] (by decide) (by decide)).1⟩

/-- C8: a record lacking the `string_list_data` field is skipped without
failing: batch extraction of any record sequence containing such a record
equals extraction with that record removed, so one malformed record never
aborts the file's import and the usernames of all well-formed records are
still extracted. -/
theorem C8_malformed_record_skipped (pre post : List Json) (item : Json)
    (h : getField item "string_list_data" = none) :
    processFollowerDataBatch (pre ++ item :: post)
      = processFollowerDataBatch (pre ++ post) :=
  processItems_skip pre [] item post h

theorem C8_witness :
    getField (Json.obj [("no_string_list_data", Json.bool true)]) "string_list_data"
      = none ∧
    processFollowerDataBatch
      [Json.obj [("string_list_data", Json.arr [Json.obj [("value", Json.str "a")]])],
       Json.obj [("no_string_list_data", Json.bool true)],
       Json.obj [("string_list_data", Json.arr [Json.obj [("value", Json.str "b")]])]]
      = processFollowerDataBatch
        [Json.obj [("string_list_data", Json.arr [Json.obj [("value", Json.str "a")]])],
         Json.obj [("string_list_data", Json.arr [Json.obj [("value", Json.str "b")]])]] ∧
    processFollowerDataBatch
      [Json.obj [("string_list_data", Json.arr [Json.obj [("value", Json.str "a")]])],
       Json.obj [("no_string_list_data", Json.bool true)],
       Json.obj [("string_list_data", Json.arr [Json.obj [("value", Json.str "b")]])]]
      = (["a", "b"], none) :=
  ⟨rfl,
    C8_malformed_record_skipped
      [Json.obj [("string_list_data", Json.arr [Json.obj [("value", Json.str "a")]])]]
      [Json.obj [("string_list_data", Json.arr [Json.obj [("value", Json.str "b")]])]]
      (Json.obj [("no_string_list_data", Json.bool true)]) rfl,
    rfl⟩

/-- C9 counterexample: the legacy `main.js` arrays (also cited by the claim)
keep duplicate entries after an import, and an entry without a `value` field
stores `undefined` — the claimed invariant fails for that stored follower
collection. -/
theorem C9_counterexample :
    mainJsProcessData []
      [Json.obj [("string_list_data",
        Json.arr [Json.obj [("value", Json.str "a")], Json.obj [("value", Json.str "a")]])]]
      = ([some (Json.str "a"), some (Json.str "a")], none) ∧
    ¬ ([some (Json.str "a"), some (Json.str "a")] : List (Option Json)).Nodup ∧
    mainJsProcessData [] [Json.obj [("string_list_data", Json.arr [Json.obj []])]]
      = ([none], none) := by
  refine ⟨rfl, by simp, rfl⟩

/-- C9 (amended): in the script's `Set`-based import pipeline the claim
holds — after every sequence of uploads on either side, both stored sets are
duplicate-free and contain no empty value (only lowercased string values are
ever inserted, so `undefined` cannot be stored); the legacy `main.js` array
pipeline preserves duplicates and can store `undefined` (see the
counterexample). -/
theorem C9_amended_import_invariant :
    ∀ uploads : List (Side × Except String Json),
      StateInv (applyUploads initState uploads) := by
  intro uploads
  exact applyUploads_inv uploads initState
    ⟨⟨List.nodup_nil, List.not_mem_nil ""⟩, ⟨List.nodup_nil, List.not_mem_nil ""⟩⟩

/-- C10 counterexample: on the empty array the promise resolves only after
one execution of the batch step (which processes an empty slice), not after
`⌈0 / batchSize⌉ = 0` batch executions as the claim states. -/
theorem C10_counterexample :
    (processInBatchesSlices ([] : List Nat)).length = 1 ∧
    (List.length ([] : List Nat) + CONFIG_batchSize - 1) / CONFIG_batchSize = 0 ∧
    (1 : Nat) ≠ 0 :=
  ⟨rfl, by decide, by decide⟩

/-- C10 (amended): `processInBatches` invokes the processor exactly once on
each element in increasing index order — the concatenation of the processed
batch slices is the input array itself — and its promise resolves after
`max 1 ⌈n / batchSize⌉` executions of the batch step: `⌈n / batchSize⌉` for
a non-empty array, while the empty array still takes the single initial
execution, which processes no elements and resolves immediately. -/
theorem C10_amended_batching {α : Type} :
    ∀ data : List α,
      (processInBatchesSlices data).flatten = data ∧
      (processInBatchesSlices data).length
        = max 1 ((data.length + CONFIG_batchSize - 1) / CONFIG_batchSize) :=
  fun data => ⟨processInBatchesSlices_flatten data, processInBatchesSlices_length data⟩
